import Mathlib

/-!
Verification development for the bevy fork's App/Schedule orchestration layer
(`crates/bevy_app/src/app.rs`) and the UI render extract/prepare pipeline
(`crates/bevy_ui/src/render/mod.rs`).

Conventions of the shallow embedding:
* `f32` values are modelled as exact rationals (`ℚ`); the properties proved
  here are algebraic relations between computed quantities, not statements
  about rounding.
* Asset handles (`Handle<Image>`) are modelled as natural-number identifiers.
  The `Handle::<Image>::default()` value that seeds `current_batch_handle` in
  `prepare_uinodes` is a weak default handle that never equals the handle of
  an image stored in `Assets<Image>`; it is modelled as `Option.none`, a real
  handle `h` as `Option.some h`.
* Systems are opaque: a system is a numeric identifier, and running it
  records that identifier in an execution log.  World contents beyond what a
  claim observes are not modelled.
* Constructs of this repository that live outside the provided sources
  (`bevy_ecs`'s `Schedule`, `RunOnce`); their definitions carry a
  `Modelled from the spec:` note and follow the spec's words.
-/

/- Batteries marks the ℚ field operations `@[irreducible]`, which blocks
`decide`/`rfl` evaluation of concrete rational arithmetic; restore the
default reducibility for this file so concrete witnesses evaluate. -/
attribute [local semireducible] Rat.mul Rat.add Rat.sub Rat.inv

/-! ## Rational 2/3/4-vectors, 4x4 matrices and quaternions (bevy_math / glam) -/

/-- Two-component vector over ℚ, modelling glam's `Vec2`. -/
structure Vec2Q where
  x : ℚ
  y : ℚ
  deriving DecidableEq

/-- Three-component vector over ℚ, modelling glam's `Vec3`. -/
structure Vec3Q where
  x : ℚ
  y : ℚ
  z : ℚ
  deriving DecidableEq

/-- Four-component vector over ℚ, modelling glam's `Vec4`. -/
structure Vec4Q where
  x : ℚ
  y : ℚ
  z : ℚ
  w : ℚ
  deriving DecidableEq

/-- Column-major 4x4 matrix over ℚ, modelling glam's `Mat4` (four columns). -/
structure Mat4Q where
  xAxis : Vec4Q
  yAxis : Vec4Q
  zAxis : Vec4Q
  wAxis : Vec4Q
  deriving DecidableEq

/-- Quaternion over ℚ, modelling glam's `Quat`. -/
structure QuatQ where
  x : ℚ
  y : ℚ
  z : ℚ
  w : ℚ
  deriving DecidableEq

def Vec2Q.add (a b : Vec2Q) : Vec2Q := ⟨a.x + b.x, a.y + b.y⟩

def Vec2Q.sub (a b : Vec2Q) : Vec2Q := ⟨a.x - b.x, a.y - b.y⟩

def Vec2Q.smul (q : ℚ) (v : Vec2Q) : Vec2Q := ⟨q * v.x, q * v.y⟩

/-- Componentwise division (`Vec2 / Vec2` in glam); over ℚ division by zero is
zero, a case no claim exercises. -/
def Vec2Q.divv (a b : Vec2Q) : Vec2Q := ⟨a.x / b.x, a.y / b.y⟩

def Vec2Q.extend (v : Vec2Q) (z : ℚ) : Vec3Q := ⟨v.x, v.y, z⟩

def Vec3Q.add (a b : Vec3Q) : Vec3Q := ⟨a.x + b.x, a.y + b.y, a.z + b.z⟩

def Vec3Q.mulv (a b : Vec3Q) : Vec3Q := ⟨a.x * b.x, a.y * b.y, a.z * b.z⟩

def Vec3Q.smul (q : ℚ) (v : Vec3Q) : Vec3Q := ⟨q * v.x, q * v.y, q * v.z⟩

def Vec3Q.extend (v : Vec3Q) (w : ℚ) : Vec4Q := ⟨v.x, v.y, v.z, w⟩

def Vec4Q.add (a b : Vec4Q) : Vec4Q := ⟨a.x + b.x, a.y + b.y, a.z + b.z, a.w + b.w⟩

def Vec4Q.smul (q : ℚ) (v : Vec4Q) : Vec4Q := ⟨q * v.x, q * v.y, q * v.z, q * v.w⟩

/-- Drop the fourth component (glam's `Vec4::xyz`). -/
def Vec4Q.xyz (v : Vec4Q) : Vec3Q := ⟨v.x, v.y, v.z⟩

/-- Matrix-vector product: `m.x_axis * v.x + m.y_axis * v.y + m.z_axis * v.z + m.w_axis * v.w`. -/
def Mat4Q.mulVec4 (m : Mat4Q) (v : Vec4Q) : Vec4Q :=
  (((m.xAxis.smul v.x).add (m.yAxis.smul v.y)).add (m.zAxis.smul v.z)).add (m.wAxis.smul v.w)

/-- Matrix product, column by column. -/
def Mat4Q.mul (a b : Mat4Q) : Mat4Q :=
  ⟨a.mulVec4 b.xAxis, a.mulVec4 b.yAxis, a.mulVec4 b.zAxis, a.mulVec4 b.wAxis⟩

/-- Rotation-matrix columns of a quaternion (glam's `Mat3::from_quat`). -/
def QuatQ.matXAxis (q : QuatQ) : Vec3Q :=
  ⟨1 - (q.y * (q.y + q.y) + q.z * (q.z + q.z)),
   q.x * (q.y + q.y) + q.w * (q.z + q.z),
   q.x * (q.z + q.z) - q.w * (q.y + q.y)⟩

def QuatQ.matYAxis (q : QuatQ) : Vec3Q :=
  ⟨q.x * (q.y + q.y) - q.w * (q.z + q.z),
   1 - (q.x * (q.x + q.x) + q.z * (q.z + q.z)),
   q.y * (q.z + q.z) + q.w * (q.x + q.x)⟩

def QuatQ.matZAxis (q : QuatQ) : Vec3Q :=
  ⟨q.x * (q.z + q.z) + q.w * (q.y + q.y),
   q.y * (q.z + q.z) - q.w * (q.x + q.x),
   1 - (q.x * (q.x + q.x) + q.y * (q.y + q.y))⟩

/-- Glam's `Mat4::from_scale_rotation_translation`. -/
def mat4FromScaleRotationTranslation (scale : Vec3Q) (rotation : QuatQ) (translation : Vec3Q) : Mat4Q :=
  ⟨(rotation.matXAxis.smul scale.x).extend 0,
   (rotation.matYAxis.smul scale.y).extend 0,
   (rotation.matZAxis.smul scale.z).extend 0,
   translation.extend 1⟩

/-- Glam's `Mat4::from_rotation_translation`. -/
def mat4FromRotationTranslation (rotation : QuatQ) (translation : Vec3Q) : Mat4Q :=
  ⟨rotation.matXAxis.extend 0, rotation.matYAxis.extend 0, rotation.matZAxis.extend 0,
   translation.extend 1⟩

/-- Glam's `Mat4::from_scale`. -/
def mat4FromScale (scale : Vec3Q) : Mat4Q :=
  ⟨⟨scale.x, 0, 0, 0⟩, ⟨0, scale.y, 0, 0⟩, ⟨0, 0, scale.z, 0⟩, ⟨0, 0, 0, 1⟩⟩

/-- Glam's `Mat4::from_translation`. -/
def mat4FromTranslation (translation : Vec3Q) : Mat4Q :=
  ⟨⟨1, 0, 0, 0⟩, ⟨0, 1, 0, 0⟩, ⟨0, 0, 1, 0⟩, translation.extend 1⟩

/-- A rectangle given by two corners, modelling `bevy_sprite::Rect`. -/
structure RectQ where
  min : Vec2Q
  max : Vec2Q
  deriving DecidableEq

/-- Rect size, `max - min`. -/
def RectQ.size (r : RectQ) : Vec2Q := r.max.sub r.min

/-- Linear RGBA color payload, modelling `bevy_render::color::Color`.  Claims
never inspect colors; the value is carried verbatim. -/
structure ColorQ where
  r : ℚ
  g : ℚ
  b : ℚ
  a : ℚ
  deriving DecidableEq

/-- Image-asset handle identifier (`Handle<Image>` by id). -/
abbrev HandleId := Nat

/-- The `bevy_transform::GlobalTransform` component: translation, rotation and
scale; `compute_matrix` builds the scale/rotation/translation matrix. -/
structure GlobalTransformQ where
  translation : Vec3Q
  rotation : QuatQ
  scale : Vec3Q
  deriving DecidableEq

/-- `GlobalTransform::compute_matrix`. -/
def GlobalTransformQ.computeMatrix (t : GlobalTransformQ) : Mat4Q :=
  mat4FromScaleRotationTranslation t.scale t.rotation t.translation

/-! ## `ExtractedUiNode` and `extract_uinodes` (render/mod.rs lines 122-181) -/

/-- One extracted UI node, matching `ExtractedUiNode` field for field.
`border_color`/`border_width`/`corner_radius` are carried payloads. -/
structure ExtractedUiNode where
  transform : Mat4Q
  color : ColorQ
  rect : RectQ
  image : HandleId
  atlasSize : Option Vec2Q
  clip : Option RectQ
  borderColor : Option ColorQ
  borderWidth : Option ℚ
  cornerRadius : Option (ℚ × ℚ × ℚ × ℚ)
  deriving DecidableEq

/-- The `Border` component (color and width), modelled from its use in
`extract_uinodes`. -/
structure BorderQ where
  color : ColorQ
  width : ℚ
  deriving DecidableEq

/-- One row of the `extract_uinodes` query:
`(&Node, &GlobalTransform, &UiColor, &UiImage, &Visibility, Option<&CalculatedClip>, Option<&CornerRadius>, Option<&Border>)`. -/
structure UiNodeRow where
  size : Vec2Q
  transform : GlobalTransformQ
  color : ColorQ
  image : HandleId
  isVisible : Bool
  clip : Option RectQ
  cornerRadius : Option (ℚ × ℚ × ℚ × ℚ)
  border : Option BorderQ
  deriving DecidableEq

/-- The record pushed by `extract_uinodes` for one query row. -/
def extractRecord (r : UiNodeRow) : ExtractedUiNode :=
  { transform := r.transform.computeMatrix
    color := r.color
    rect := ⟨⟨0, 0⟩, r.size⟩
    image := r.image
    atlasSize := none
    clip := r.clip
    borderColor := r.border.map BorderQ.color
    borderWidth := r.border.map BorderQ.width
    cornerRadius := r.cornerRadius }

/-- The loop body of `extract_uinodes`: skip invisible rows, skip rows whose
image is not yet in `Assets<Image>` (still loading), push one record for every
other row. -/
def extractUinodesGo (images : List HandleId) : List UiNodeRow → List ExtractedUiNode
  | [] => []
  | r :: rest =>
    if r.isVisible = false then extractUinodesGo images rest
    else if images.contains r.image = false then extractUinodesGo images rest
    else extractRecord r :: extractUinodesGo images rest

/-- `extract_uinodes`: clears `ExtractedUiNodes.uinodes` (so the prior buffer
contents are discarded) and repopulates it from the query. -/
def extract_uinodes (buffer : List ExtractedUiNode) (images : List HandleId)
    (rows : List UiNodeRow) : List ExtractedUiNode :=
  -- `extracted_uinodes.uinodes.clear()` discards `buffer`, then the loop pushes
  let _cleared : List ExtractedUiNode := buffer.take 0
  extractUinodesGo images rows

/-! ## `extract_text_uinodes` (render/mod.rs lines 183-248) -/

/-- A positioned glyph of a text layout (`bevy_text::PositionedGlyph` as used
by `extract_text_uinodes`): section index, atlas handle, glyph index in the
atlas and position. -/
structure TextGlyph where
  sectionIndex : Nat
  atlasHandle : HandleId
  glyphIndex : Nat
  position : Vec2Q
  deriving DecidableEq

/-- A texture atlas (`bevy_sprite::TextureAtlas`) as consumed by
`extract_text_uinodes`: backing texture handle, size, and the glyph
rectangles.  The source indexes `atlas.textures[index]` (panicking out of
bounds); the rectangles are modelled as a total map. -/
structure AtlasQ where
  texture : HandleId
  size : Vec2Q
  textures : Nat → RectQ

/-- One row of the `extract_text_uinodes` query:
`(Entity, &Node, &GlobalTransform, &Text, &Visibility, Option<&CalculatedClip>)`.
Of `Text` only the per-section colors are consumed (`sections[i].style.color`,
indexed, modelled as a total map). -/
structure TextRow where
  entity : Nat
  size : Vec2Q
  transform : GlobalTransformQ
  sectionColors : Nat → ColorQ
  isVisible : Bool
  clip : Option RectQ

/-- The record pushed for one glyph of a text node.  `atlases` models
`Assets<TextureAtlas>`; the source unwraps the lookup (panicking when the
atlas is absent), so the store is modelled as a total map. -/
def textGlyphRecord (atlases : HandleId → AtlasQ) (scaleFactor : ℚ) (row : TextRow)
    (g : TextGlyph) : ExtractedUiNode :=
  let atlas := atlases g.atlasHandle
  let alignmentOffset := (Vec2Q.smul (-(1:ℚ)/2) row.size).extend 0
  { transform :=
      (mat4FromRotationTranslation row.transform.rotation row.transform.translation).mul
        ((mat4FromScale (Vec3Q.smul (1 / scaleFactor) row.transform.scale)).mul
          (mat4FromTranslation ((alignmentOffset.smul scaleFactor).add (g.position.extend 0))))
    color := row.sectionColors g.sectionIndex
    rect := atlas.textures g.glyphIndex
    image := atlas.texture
    atlasSize := some atlas.size
    clip := row.clip
    borderColor := none
    borderWidth := none
    cornerRadius := none }

/-- The loop of `extract_text_uinodes`: skip invisible rows and rows of zero
size; for a row with a computed glyph layout push one record per glyph.
`pipeline` models `DefaultTextPipeline::get_glyphs` (an `Option`al layout per
entity).  The buffer is appended to, never cleared. -/
def extractTextGo (atlases : HandleId → AtlasQ) (pipeline : Nat → Option (List TextGlyph))
    (scaleFactor : ℚ) (buffer : List ExtractedUiNode) : List TextRow → List ExtractedUiNode
  | [] => buffer
  | row :: rest =>
    if row.isVisible = false then extractTextGo atlases pipeline scaleFactor buffer rest
    else if row.size = (⟨0, 0⟩ : Vec2Q) then extractTextGo atlases pipeline scaleFactor buffer rest
    else
      match pipeline row.entity with
      | none => extractTextGo atlases pipeline scaleFactor buffer rest
      | some glyphs =>
          extractTextGo atlases pipeline scaleFactor
            (buffer ++ glyphs.map (textGlyphRecord atlases scaleFactor row)) rest

/-- `extract_text_uinodes`: computes the primary window's scale factor
(defaulting to 1) and appends one record per visible glyph to the buffer. -/
def extract_text_uinodes (buffer : List ExtractedUiNode) (atlases : HandleId → AtlasQ)
    (pipeline : Nat → Option (List TextGlyph)) (primaryScaleFactor : Option ℚ)
    (rows : List TextRow) : List ExtractedUiNode :=
  let scaleFactor := match primaryScaleFactor with
    | some s => s
    | none => 1
  extractTextGo atlases pipeline scaleFactor buffer rows

/-- The Extract-stage composition registered by `build_ui_render`
(render/mod.rs lines 80-91): `extract_uinodes` carries the label
`RenderUiSystem::ExtractNode` and `extract_text_uinodes` is registered
`.after` that label, so within the stage the text pass observes the node
pass's buffer. -/
def runExtractStage (buffer : List ExtractedUiNode) (images : List HandleId)
    (rows : List UiNodeRow) (atlases : HandleId → AtlasQ)
    (pipeline : Nat → Option (List TextGlyph)) (primaryScaleFactor : Option ℚ)
    (textRows : List TextRow) : List ExtractedUiNode :=
  extract_text_uinodes (extract_uinodes buffer images rows) atlases pipeline
    primaryScaleFactor textRows

/-! ## `prepare_uinodes` (render/mod.rs lines 250-474) -/

/-- `MAX_UI_UNIFORM_ENTRIES` (render/mod.rs line 258). -/
def MAX_UI_UNIFORM_ENTRIES : Nat := 256

/-- One vertex pushed to `ui_meta.vertices` (`UiVertex`). -/
structure UiVertex where
  position : Vec3Q
  uv : Vec2Q
  uniformIndex : Nat
  deriving DecidableEq

/-- A draw batch (`UiBatch`): vertex range, image handle, offset of the
batch's uniform table in `ui_meta.ui_uniforms`, and depth.  The image is the
batch handle at spawn time (`none` models the never-matching default
handle). -/
structure UiBatch where
  rangeStart : Nat
  rangeEnd : Nat
  image : Option HandleId
  uiUniformOffset : Nat
  z : ℚ
  deriving DecidableEq

/-- Depth key used by the `prepare_uinodes` sort and batches:
`transform.w_axis[2]`. -/
def zOf (n : ExtractedUiNode) : ℚ := n.transform.wAxis.z

/-- The four corners in `QUAD_VERTEX_POSITIONS` order. -/
structure Corners where
  c0 : Vec3Q
  c1 : Vec3Q
  c2 : Vec3Q
  c3 : Vec3Q
  deriving DecidableEq

/-- The four clip adjustments (`positions_diff`). -/
structure Diff4 where
  d0 : Vec2Q
  d1 : Vec2Q
  d2 : Vec2Q
  d3 : Vec2Q
  deriving DecidableEq

/-- `rect_size = uinode_rect.size().extend(1.0)`. -/
def rectSizeOf (n : ExtractedUiNode) : Vec3Q := n.rect.size.extend 1

/-- The transformed quad corners:
`QUAD_VERTEX_POSITIONS.map(|pos| (transform * (pos * rect_size).extend(1.)).xyz())`
with `QUAD_VERTEX_POSITIONS = [(-0.5,-0.5,0), (0.5,-0.5,0), (0.5,0.5,0), (-0.5,0.5,0)]`. -/
def positionsOf (n : ExtractedUiNode) : Corners :=
  let rs := rectSizeOf n
  let corner : Vec3Q → Vec3Q := fun pos => (n.transform.mulVec4 ((pos.mulv rs).extend 1)).xyz
  ⟨corner ⟨-(1:ℚ)/2, -(1:ℚ)/2, 0⟩, corner ⟨(1:ℚ)/2, -(1:ℚ)/2, 0⟩,
   corner ⟨(1:ℚ)/2, (1:ℚ)/2, 0⟩, corner ⟨-(1:ℚ)/2, (1:ℚ)/2, 0⟩⟩

/-- `f32::max` (kernel-computable; Mathlib's `max` on ℚ does not reduce). -/
def qmax (a b : ℚ) : ℚ := if a ≤ b then b else a

/-- `f32::min`. -/
def qmin (a b : ℚ) : ℚ := if a ≤ b then a else b

/-- `positions_diff`: per-corner clip adjustment, zero without a clip. -/
def positionsDiffOf (n : ExtractedUiNode) : Diff4 :=
  match n.clip with
  | none => ⟨⟨0, 0⟩, ⟨0, 0⟩, ⟨0, 0⟩, ⟨0, 0⟩⟩
  | some clip =>
    let p := positionsOf n
    ⟨⟨qmax (clip.min.x - p.c0.x) 0, qmax (clip.min.y - p.c0.y) 0⟩,
     ⟨qmin (clip.max.x - p.c1.x) 0, qmax (clip.min.y - p.c1.y) 0⟩,
     ⟨qmin (clip.max.x - p.c2.x) 0, qmin (clip.max.y - p.c2.y) 0⟩,
     ⟨qmax (clip.min.x - p.c3.x) 0, qmin (clip.max.y - p.c3.y) 0⟩⟩

/-- The cull test of `prepare_uinodes`:
`positions_diff[0].x - positions_diff[1].x >= rect_size.x || positions_diff[1].y - positions_diff[2].y >= rect_size.y`. -/
def culled (n : ExtractedUiNode) : Bool :=
  let d := positionsDiffOf n
  let rs := rectSizeOf n
  decide (rs.x ≤ d.d0.x - d.d1.x) || decide (rs.y ≤ d.d1.y - d.d2.y)

/-- The clipped corners (`positions_clipped`). -/
def positionsClippedOf (n : ExtractedUiNode) : Corners :=
  let p := positionsOf n
  let d := positionsDiffOf n
  ⟨p.c0.add (d.d0.extend 0), p.c1.add (d.d1.extend 0),
   p.c2.add (d.d2.extend 0), p.c3.add (d.d3.extend 0)⟩

/-- The clip-adjusted UVs, divided by `atlas_extent` (y reversed in UV space). -/
def uvsOf (n : ExtractedUiNode) : Vec2Q × Vec2Q × Vec2Q × Vec2Q :=
  let d := positionsDiffOf n
  let r := n.rect
  let atlasExtent := n.atlasSize.getD r.max
  (Vec2Q.divv ⟨r.min.x + d.d0.x, r.max.y - d.d0.y⟩ atlasExtent,
   Vec2Q.divv ⟨r.max.x + d.d1.x, r.max.y - d.d1.y⟩ atlasExtent,
   Vec2Q.divv ⟨r.max.x + d.d2.x, r.min.y - d.d2.y⟩ atlasExtent,
   Vec2Q.divv ⟨r.min.x + d.d3.x, r.min.y - d.d3.y⟩ atlasExtent)

/-- The six vertices pushed for one node, in `QUAD_INDICES = [0, 2, 3, 0, 1, 2]`
order, all carrying the node's uniform index. -/
def nodeVerts (n : ExtractedUiNode) (uniformIndex : Nat) : List UiVertex :=
  let p := positionsClippedOf n
  let uv := uvsOf n
  [⟨p.c0, uv.1, uniformIndex⟩, ⟨p.c2, uv.2.2.1, uniformIndex⟩, ⟨p.c3, uv.2.2.2, uniformIndex⟩,
   ⟨p.c0, uv.1, uniformIndex⟩, ⟨p.c1, uv.2.1, uniformIndex⟩, ⟨p.c2, uv.2.2.1, uniformIndex⟩]

/-- The mutable state of the `prepare_uinodes` loop.  `verts` is
`ui_meta.vertices`, `uniformsPushed` counts `ui_meta.ui_uniforms` entries
(`DynamicUniformVec::push` returns the pre-push count as the offset),
`batches` the spawned `UiBatch` components; `start`/`ending` are the `start`
and `end` vertex cursors; `currentBatchHandle` is `current_batch_handle`
(`none` = `Handle::default()`), and `currentUniformIndex` is
`current_uniform_index`.  The contents of `current_batch_uniform.entries`
(packed colors, centers, borders) are GPU-side payload that no claim
observes and are not modelled; the index and the push count are. -/
structure PrepState where
  verts : List UiVertex
  uniformsPushed : Nat
  batches : List UiBatch
  start : Nat
  ending : Nat
  currentBatchHandle : Option HandleId
  lastZ : ℚ
  currentUniformIndex : Nat
  deriving DecidableEq

/-- Initial state of the loop, after `ui_meta.vertices.clear()` and
`ui_meta.ui_uniforms.clear()`. -/
def prepareInit : PrepState :=
  { verts := []
    uniformsPushed := 0
    batches := []
    start := 0
    ending := 0
    currentBatchHandle := none
    lastZ := 0
    currentUniformIndex := 0 }

/-- One iteration of the `prepare_uinodes` loop for one extracted node:
first the batch-boundary check (image handle change or full uniform table),
then clipping, culling, and the vertex pushes. -/
def prepareStep (st : PrepState) (n : ExtractedUiNode) : PrepState :=
  let st1 : PrepState :=
    if st.currentBatchHandle ≠ some n.image ∨ MAX_UI_UNIFORM_ENTRIES ≤ st.currentUniformIndex then
      let st2 : PrepState :=
        if st.start ≠ st.ending then
          { st with
            batches := st.batches ++
              [⟨st.start, st.ending, st.currentBatchHandle, st.uniformsPushed, st.lastZ⟩]
            uniformsPushed := st.uniformsPushed + 1
            currentUniformIndex := 0
            start := st.ending }
        else st
      { st2 with currentBatchHandle := some n.image }
    else st
  if culled n then st1
  else
    { st1 with
      verts := st1.verts ++ nodeVerts n st1.currentUniformIndex
      currentUniformIndex := st1.currentUniformIndex + 1
      lastZ := zOf n
      ending := st1.ending + 6 }

/-- The trailing flush after the loop: `if start != end` push the last uniform
table and spawn one more batch. -/
def prepareFinish (st : PrepState) : PrepState :=
  if st.start ≠ st.ending then
    { st with
      batches := st.batches ++
        [⟨st.start, st.ending, st.currentBatchHandle, st.uniformsPushed, st.lastZ⟩]
      uniformsPushed := st.uniformsPushed + 1 }
  else st

/-- Insertion step of the depth sort (stable, ascending `z`, matching the
comparator `FloatOrd(a.transform.w_axis[2]).cmp(&FloatOrd(b.transform.w_axis[2]))`). -/
def insertByZ (n : ExtractedUiNode) : List ExtractedUiNode → List ExtractedUiNode
  | [] => [n]
  | m :: rest => if zOf n ≤ zOf m then n :: m :: rest else m :: insertByZ n rest

/-- Stable sort by ascending depth key (`Vec::sort_by` is stable; any stable
sort computes the same list). -/
def sortByZ : List ExtractedUiNode → List ExtractedUiNode
  | [] => []
  | n :: rest => insertByZ n (sortByZ rest)

/-- `prepare_uinodes`: clear the meta buffers, sort the extracted nodes by
ascending depth, run the batching loop, and flush the final batch.  The
final `write_buffer` calls are GPU submissions with no observable state
here. -/
def prepare_uinodes (nodes : List ExtractedUiNode) : PrepState :=
  prepareFinish ((sortByZ nodes).foldl prepareStep prepareInit)

/-- A list sorted by ascending depth key (adjacent comparisons suffice). -/
def sortedByZ (nodes : List ExtractedUiNode) : Prop :=
  List.Chain' (fun m n => zOf m ≤ zOf n) nodes

/-- Executable sortedness check. -/
def sortedByZb : List ExtractedUiNode → Bool
  | [] => true
  | [_] => true
  | n :: m :: rest => decide (zOf n ≤ zOf m) && sortedByZb (m :: rest)

lemma sortedByZb_iff : ∀ nodes : List ExtractedUiNode,
    sortedByZ nodes ↔ sortedByZb nodes = true
  | [] => by simp [sortedByZ, sortedByZb]
  | [n] => by simp [sortedByZ, sortedByZb]
  | n :: m :: rest => by
    show List.Chain' (fun x y => zOf x ≤ zOf y) (n :: m :: rest) ↔ _
    rw [List.chain'_cons,
      show sortedByZb (n :: m :: rest) = (decide (zOf n ≤ zOf m) && sortedByZb (m :: rest))
        from rfl,
      Bool.and_eq_true, decide_eq_true_iff]
    exact and_congr Iff.rfl (sortedByZb_iff (m :: rest))

instance (nodes : List ExtractedUiNode) : Decidable (sortedByZ nodes) :=
  decidable_of_iff (sortedByZb nodes = true) (sortedByZb_iff nodes).symm

/-- The remaining visible x-span of a node after clip reduction, following the
spec's wording (the clip shrinks the quad per axis; the span left of the
node's width once the left and right reductions are applied).  Defined for
comparison with the code's cull test. -/
def visibleSpanX (n : ExtractedUiNode) : ℚ :=
  (rectSizeOf n).x - ((positionsDiffOf n).d0.x - (positionsDiffOf n).d1.x)

/-- The remaining visible y-span of a node after clip reduction (spec side). -/
def visibleSpanY (n : ExtractedUiNode) : ℚ :=
  (rectSizeOf n).y - ((positionsDiffOf n).d1.y - (positionsDiffOf n).d2.y)

/-! ## The `App` / `Schedule` orchestration layer (crates/bevy_app/src/app.rs)

The `Schedule`, `Stage` and `RunOnce` types live in `bevy_ecs`, outside the
provided sources; their behavior is modelled from the spec (sections 4.1 and
4.3): a schedule is an ordered list of labeled stages, `add_stage` appends at
the end, `add_system_to_stage` looks the stage up by label and fails (panics)
when the label is missing or the stage is not a `SystemStage`, and the
startup schedule's `RunOnce` criterion makes its nested stages execute only
on the first tick.  Only the one level of schedule nesting the sources build
(the startup schedule containing plain system stages) is represented. -/

/-- The `CoreStage` labels. -/
inductive CoreStageL where
  | first
  | preUpdate
  | update
  | postUpdate
  | last
  deriving DecidableEq

/-- The `StartupStage` labels. -/
inductive StartupStageL where
  | preStartup
  | startup
  | postStartup
  deriving DecidableEq

/-- A boxed `dyn StageLabel` value together with its concrete Rust type:
`CoreStage`, the `StartupSchedule` marker, `StartupStage`, or some other
user-defined label type. -/
inductive StageLabelV where
  | core (c : CoreStageL)
  | startupSchedule
  | startupStage (s : StartupStageL)
  | custom (n : Nat)
  deriving DecidableEq

/-- `label.type_id() == TypeId::of::<StartupStage>()` — the check in the
`assert!` of `add_system_to_stage` / `add_system_set_to_stage`. -/
def StageLabelV.isStartupStageType : StageLabelV → Bool
  | .startupStage _ => true
  | _ => false

/-- A system is an opaque unit of logic identified by a number; running it
records the number in the execution log. -/
abbrev SysId := Nat

/-- Modelled from the spec: a `Stage` is either a parallel `SystemStage`
(an ordered collection of systems) or a nested `Schedule` gated by a
`RunOnce` criterion holding its has-run flag — the only criterion the
sources install (`with_run_criteria(RunOnce::default())`).  The nested
schedule's stages are the startup `SystemStage`s. -/
inductive StageV where
  | systems (ss : List SysId)
  | nested (ran : Bool) (sub : List (StageLabelV × List SysId))
  deriving DecidableEq

/-- A schedule: an ordered association list of labeled stages (spec 3:
"owns an ordered mapping from stage-label to Stage"). -/
abbrev ScheduleV := List (StageLabelV × StageV)

/-- Modelled from the spec: running one stage returns the updated stage (the
`RunOnce` flag flips to `true` once the nested schedule has run) and the log
of executed systems; a nested schedule whose criterion has already run is
skipped. -/
def runStage : StageV → StageV × List SysId
  | .systems ss => (.systems ss, ss)
  | .nested true sub => (.nested true sub, [])
  | .nested false sub => (.nested true sub, (sub.map Prod.snd).flatten)

/-- Modelled from the spec: running a schedule runs every stage in list
order, each to completion. -/
def runSchedule : ScheduleV → ScheduleV × List SysId
  | [] => ([], [])
  | (l, s) :: rest =>
    let p := runStage s
    let q := runSchedule rest
    ((l, p.1) :: q.1, p.2 ++ q.2)

/-- Modelled from the spec: `Schedule::add_stage` appends at the end. -/
def scheduleAddStage (sched : ScheduleV) (label : StageLabelV) (stage : StageV) : ScheduleV :=
  sched ++ [(label, stage)]

/-- Modelled from the spec: `Schedule::add_system_to_stage` finds the stage by
label and appends the system; it fails (`none`, a panic in the source) when
the label is absent or the stage is not a `SystemStage`. -/
def scheduleAddSystemToStage : ScheduleV → StageLabelV → SysId → Option ScheduleV
  | [], _, _ => none
  | (l, st) :: rest, target, sys =>
    if l = target then
      match st with
      | .systems ss => some ((l, .systems (ss ++ [sys])) :: rest)
      | .nested _ _ => none
    else
      (scheduleAddSystemToStage rest target sys).map ((l, st) :: ·)

/-- Modelled from the spec: adding a `SystemSet` to a stage is equivalent to
adding each member individually (spec 4.2); the set is its member list. -/
def scheduleAddSystemSetToStage : ScheduleV → StageLabelV → List SysId → Option ScheduleV
  | [], _, _ => none
  | (l, st) :: rest, target, set =>
    if l = target then
      match st with
      | .systems ss => some ((l, .systems (ss ++ set)) :: rest)
      | .nested _ _ => none
    else
      (scheduleAddSystemSetToStage rest target set).map ((l, st) :: ·)

/-- Adding a system to a stage of the nested startup schedule (the inner
`schedule.add_system_to_stage(stage_label, system)` of
`add_startup_system_to_stage`); fails when the label is absent. -/
def startupAddSystem : List (StageLabelV × List SysId) → StageLabelV → SysId →
    Option (List (StageLabelV × List SysId))
  | [], _, _ => none
  | (l, ss) :: rest, target, sys =>
    if l = target then some ((l, ss ++ [sys]) :: rest)
    else (startupAddSystem rest target sys).map ((l, ss) :: ·)

/-- Set variant of `startupAddSystem`. -/
def startupAddSystemSet : List (StageLabelV × List SysId) → StageLabelV → List SysId →
    Option (List (StageLabelV × List SysId))
  | [], _, _ => none
  | (l, ss) :: rest, target, set =>
    if l = target then some ((l, ss ++ set) :: rest)
    else (startupAddSystemSet rest target set).map ((l, ss) :: ·)

/-- `schedule.stage(StartupSchedule, |schedule: &mut Schedule| ...)`: looks up
the startup schedule by label, downcasts it to `Schedule` (failing when the
label is absent or the stage is of another kind) and applies the mutation to
its stage list. -/
def scheduleStageStartup (sched : ScheduleV)
    (f : List (StageLabelV × List SysId) → Option (List (StageLabelV × List SysId))) :
    Option ScheduleV :=
  match sched with
  | [] => none
  | (l, st) :: rest =>
    if l = StageLabelV.startupSchedule then
      match st with
      | .nested ran sub => (f sub).map (fun sub2 => (l, .nested ran sub2) :: rest)
      | .systems _ => none
    else
      (scheduleStageStartup rest f).map ((l, st) :: ·)

/-- The main world of an `App`.  Systems are opaque, so the world carries no
observable contents for the claims at hand; `App::empty` installs
`Default::default()`. -/
structure WorldV where
  resources : List Nat
  deriving DecidableEq

/-- The runner installed in an `App` (`Box<dyn Fn(App)>`): the built-in
`run_once` or some user closure, identified opaquely. -/
inductive RunnerTag where
  | runOnce
  | custom (n : Nat)
  deriving DecidableEq

/-- An `AppLabel` key of the sub-app map, by identity. -/
abbrev AppLabelV := Nat

/-- A sub-app runner closure (`Box<dyn Fn(&mut World, &mut App)>`),
identified opaquely; an environment interprets identifiers as functions when
`update` is run. -/
abbrev SubRunnerTag := Nat

/-- An `App`: world, schedule, runner, and the labeled `SubApp`s (each a
nested `App` plus its runner closure).  `HashMap<Box<dyn AppLabel>, SubApp>`
is modelled as an association list with unique keys. -/
inductive AppV where
  | mk (world : WorldV) (schedule : ScheduleV) (runner : RunnerTag)
      (subApps : List (AppLabelV × AppV × SubRunnerTag))

def AppV.world : AppV → WorldV
  | .mk w _ _ _ => w

def AppV.schedule : AppV → ScheduleV
  | .mk _ s _ _ => s

def AppV.runner : AppV → RunnerTag
  | .mk _ _ r _ => r

def AppV.subApps : AppV → List (AppLabelV × AppV × SubRunnerTag)
  | .mk _ _ _ sa => sa

def AppV.withSchedule (a : AppV) (s : ScheduleV) : AppV :=
  .mk a.world s a.runner a.subApps

/-- `App::empty()`: default world, default schedule, `run_once` runner, no
sub-apps. -/
def AppV.empty : AppV := .mk ⟨[]⟩ [] .runOnce []

/-- Observable events of one `update()` call: a system execution, or the
invocation of a sub-app's runner closure. -/
inductive EventV where
  | sysRun (id : SysId)
  | subAppRun (label : AppLabelV)
  deriving DecidableEq

/-- An interpretation of sub-app runner closures: each opaque tag denotes a
function of the main world and the sub-app's own `App`, mutating both. -/
abbrev SubRunnerEnv := SubRunnerTag → WorldV → AppV → WorldV × AppV

/-- The `for sub_app in self.sub_apps.values_mut()` loop of `App::update`:
invoke each registered sub-app's runner once, in map order, passing the main
world and that sub-app's `App`, and record the invocation. -/
def runSubApps (env : SubRunnerEnv) :
    WorldV → List (AppLabelV × AppV × SubRunnerTag) →
    WorldV × List (AppLabelV × AppV × SubRunnerTag) × List EventV
  | w, [] => (w, [], [])
  | w, (l, sub, r) :: rest =>
    let p := env r w sub
    let q := runSubApps env p.1 rest
    (q.1, (l, p.2, r) :: q.2.1, EventV.subAppRun l :: q.2.2)

/-- `App::update` (app.rs lines 111-120): run the main schedule once against
the app's world, then invoke each registered sub-app's runner.  Returns the
updated app and the event trace of the call. -/
def AppV.update (env : SubRunnerEnv) (a : AppV) : AppV × List EventV :=
  let p := runSchedule a.schedule
  let q := runSubApps env a.world a.subApps
  (.mk q.1 p.1 a.runner q.2.1, p.2.map EventV.sysRun ++ q.2.2)

/-- `update` iterated: `iterApp env k a` is the app after `k` calls to
`update`. -/
def iterApp (env : SubRunnerEnv) : Nat → AppV → AppV
  | 0, a => a
  | k + 1, a => iterApp env k (AppV.update env a).1

/-- `run_once` (app.rs lines 904-906), the default runner: one `update`. -/
def runOnceRunner (env : SubRunnerEnv) (a : AppV) : AppV :=
  (AppV.update env a).1

/-- `App::run` (app.rs lines 126-135): `mem::replace` the whole app with
`App::empty()`, `mem::replace` the moved-out app's runner with `run_once`,
and hand the moved-out app to the extracted runner.  The result records the
placeholder left in `self`, the runner that gets invoked (exactly once), and
the `App` value it is invoked with; what the runner then does is its own
(opaque) behavior. -/
def AppV.run (a : AppV) : AppV × RunnerTag × AppV :=
  (AppV.empty, a.runner, .mk a.world a.schedule .runOnce a.subApps)

/-- `App::add_stage`: appends to the schedule. -/
def AppV.add_stage (a : AppV) (label : StageLabelV) (stage : StageV) : AppV :=
  a.withSchedule (scheduleAddStage a.schedule label stage)

/-- `App::add_system_to_stage` (app.rs lines 370-382): asserts that the
label's concrete type is not `StartupStage` (otherwise panics — `none` —
before touching the schedule), then delegates to the schedule. -/
def AppV.add_system_to_stage (a : AppV) (label : StageLabelV) (sys : SysId) : Option AppV :=
  if label.isStartupStageType then none
  else (scheduleAddSystemToStage a.schedule label sys).map a.withSchedule

/-- `App::add_system_set_to_stage` (app.rs lines 405-418): same assertion,
then delegates. -/
def AppV.add_system_set_to_stage (a : AppV) (label : StageLabelV) (set : List SysId) :
    Option AppV :=
  if label.isStartupStageType then none
  else (scheduleAddSystemSetToStage a.schedule label set).map a.withSchedule

/-- `App::add_system`: adds to `CoreStage::Update`. -/
def AppV.add_system (a : AppV) (sys : SysId) : Option AppV :=
  a.add_system_to_stage (.core .update) sys

/-- `App::add_startup_system_to_stage` (app.rs lines 484-494): mutates the
stage named `stage_label` inside the startup schedule. -/
def AppV.add_startup_system_to_stage (a : AppV) (label : StageLabelV) (sys : SysId) :
    Option AppV :=
  (scheduleStageStartup a.schedule (fun sub => startupAddSystem sub label sys)).map
    a.withSchedule

/-- `App::add_startup_system_set_to_stage` (app.rs lines 520-530). -/
def AppV.add_startup_system_set_to_stage (a : AppV) (label : StageLabelV) (set : List SysId) :
    Option AppV :=
  (scheduleStageStartup a.schedule (fun sub => startupAddSystemSet sub label set)).map
    a.withSchedule

/-- `App::add_startup_system`: adds to `StartupStage::Startup`. -/
def AppV.add_startup_system (a : AppV) (sys : SysId) : Option AppV :=
  a.add_startup_system_to_stage (.startupStage .startup) sys

/-- `App::add_default_stages` (app.rs lines 592-606): First, the startup
schedule (a nested `Schedule` with a fresh `RunOnce` criterion and the three
startup stages), PreUpdate, Update, PostUpdate, Last — appended in that
order. -/
def AppV.add_default_stages (a : AppV) : AppV :=
  ((((((a.add_stage (.core .first) (.systems [])).add_stage
      .startupSchedule
      (.nested false
        [(.startupStage .preStartup, []), (.startupStage .startup, []),
         (.startupStage .postStartup, [])])).add_stage
      (.core .preUpdate) (.systems [])).add_stage
      (.core .update) (.systems [])).add_stage
      (.core .postUpdate) (.systems [])).add_stage
      (.core .last) (.systems []))

/-- The system id of `Events::<AppExit>::update_system` registered by
`App::default` via `add_event::<AppExit>`. -/
def appExitUpdateSys : SysId := 0

/-- The system id of the `World::clear_trackers` exclusive system registered
by `App::default` into `CoreStage::Last`. -/
def clearTrackersSys : SysId := 1

/-- `App::add_event::<T>`: `init_resource::<Events<T>>()` (the resource store
is not observed by any claim) and the update system added to
`CoreStage::First`. -/
def AppV.add_event (a : AppV) (updateSystem : SysId) : Option AppV :=
  a.add_system_to_stage (.core .first) updateSystem

/-- `App::default()` = `App::new()` (app.rs lines 68-92): `App::empty()`,
default stages, the `AppExit` event, and `clear_trackers` in `Last`.
`Option`-valued because the intermediate calls can panic (they do not, on
this schedule). -/
def AppV.defaultApp : Option AppV :=
  (AppV.empty.add_default_stages.add_event appExitUpdateSys).bind
    (fun a => a.add_system_to_stage (.core .last) clearTrackersSys)

/-- An app whose schedule has the default-stage shape, with the given system
lists in the seven system stages (First, PreStartup/Startup/PostStartup,
PreUpdate, Update, PostUpdate, Last) and an un-run startup criterion. -/
def defaultShaped (f p s q pre u post l : List SysId) : AppV :=
  .mk ⟨[]⟩
    [(.core .first, .systems f),
     (.startupSchedule,
       .nested false
         [(.startupStage .preStartup, p), (.startupStage .startup, s),
          (.startupStage .postStartup, q)]),
     (.core .preUpdate, .systems pre),
     (.core .update, .systems u),
     (.core .postUpdate, .systems post),
     (.core .last, .systems l)]
    .runOnce []

/-- Same shape after the startup schedule has run (`RunOnce` flag set). -/
def defaultShapedRan (f p s q pre u post l : List SysId) : AppV :=
  .mk ⟨[]⟩
    [(.core .first, .systems f),
     (.startupSchedule,
       .nested true
         [(.startupStage .preStartup, p), (.startupStage .startup, s),
          (.startupStage .postStartup, q)]),
     (.core .preUpdate, .systems pre),
     (.core .update, .systems u),
     (.core .postUpdate, .systems post),
     (.core .last, .systems l)]
    .runOnce []

/-- The concrete `App::new()` value. -/
def appNew : AppV :=
  defaultShaped [appExitUpdateSys] [] [] [] [] [] [] [clearTrackersSys]

/-- Sub-app map lookup (`self.sub_apps.get(&label)`). -/
def findSubApp : List (AppLabelV × AppV × SubRunnerTag) → AppLabelV → Option (AppV × SubRunnerTag)
  | [], _ => none
  | (l, sub, r) :: rest, target => if l = target then some (sub, r) else findSubApp rest target

/-- `HashMap::insert`: replace the entry under an existing key, else add. -/
def insertSubApp : List (AppLabelV × AppV × SubRunnerTag) → AppLabelV → AppV → SubRunnerTag →
    List (AppLabelV × AppV × SubRunnerTag)
  | [], l, sub, r => [(l, sub, r)]
  | (l2, sub2, r2) :: rest, l, sub, r =>
    if l2 = l then (l, sub, r) :: rest else (l2, sub2, r2) :: insertSubApp rest l sub r

/-- `App::add_sub_app` (app.rs lines 853-867). -/
def AppV.add_sub_app (a : AppV) (label : AppLabelV) (sub : AppV) (r : SubRunnerTag) : AppV :=
  .mk a.world a.schedule a.runner (insertSubApp a.subApps label sub r)

/-- `App::get_sub_app` (app.rs lines 896-901): the nested `App` of the
registered sub-app, or `Err` carrying back the label.  The accessor takes
`&self` — it cannot modify the app. -/
def AppV.get_sub_app (a : AppV) (label : AppLabelV) : Except AppLabelV AppV :=
  match findSubApp a.subApps label with
  | some (sub, _) => .ok sub
  | none => .error label

/-- `App::get_sub_app_mut` (app.rs lines 879-884): same lookup through
`get_mut`; in the not-found case the map, and hence the app, is untouched. -/
def AppV.get_sub_app_mut (a : AppV) (label : AppLabelV) : Except AppLabelV AppV :=
  match findSubApp a.subApps label with
  | some (sub, _) => .ok sub
  | none => .error label

/-- `App::sub_app` (app.rs lines 887-892): panics (`none`) on the `Err` of
`get_sub_app`. -/
def AppV.sub_app (a : AppV) (label : AppLabelV) : Option AppV :=
  match a.get_sub_app label with
  | .ok sub => some sub
  | .error _ => none

/-- `App::sub_app_mut` (app.rs lines 870-875). -/
def AppV.sub_app_mut (a : AppV) (label : AppLabelV) : Option AppV :=
  match a.get_sub_app_mut label with
  | .ok sub => some sub
  | .error _ => none

/-! ## Accessors used by statements -/

/-- Stage lookup by label. -/
def findStage : ScheduleV → StageLabelV → Option StageV
  | [], _ => none
  | (l, st) :: rest, target => if l = target then some st else findStage rest target

/-- The labels of the stages nested in the startup schedule. -/
def startupSubLabels (a : AppV) : List StageLabelV :=
  match findStage a.schedule .startupSchedule with
  | some (.nested _ sub) => sub.map Prod.fst
  | _ => []

/-- The system list of one startup sub-stage. -/
def startupStageSystems (a : AppV) (l : StartupStageL) : List SysId :=
  match findStage a.schedule .startupSchedule with
  | some (.nested _ sub) =>
    match sub.lookup (.startupStage l) with
    | some ss => ss
    | none => []
  | _ => []

/-! ## C3: default stage order, default placement of systems -/

/-- C3.  An `App` built by `App::new()`/`App::default()` (that is, with
`add_default_stages`) has stage order First, startup schedule (PreStartup,
Startup, PostStartup in that order), PreUpdate, Update, PostUpdate, Last;
`add_system` with no stage appends the system to the Update stage, and
`add_startup_system` appends it to the Startup sub-stage of the startup
schedule. -/
theorem default_stage_order :
    AppV.defaultApp = some appNew ∧
    appNew.schedule.map Prod.fst =
      [.core .first, .startupSchedule, .core .preUpdate, .core .update,
       .core .postUpdate, .core .last] ∧
    startupSubLabels appNew =
      [.startupStage .preStartup, .startupStage .startup, .startupStage .postStartup] ∧
    (∀ sys : SysId,
      appNew.add_system sys =
        some (defaultShaped [appExitUpdateSys] [] [] [] [] [sys] [] [clearTrackersSys])) ∧
    (∀ sys : SysId,
      appNew.add_startup_system sys =
        some (defaultShaped [appExitUpdateSys] [] [sys] [] [] [] [] [clearTrackersSys])) :=
  ⟨rfl, rfl, rfl, fun _ => rfl, fun _ => rfl⟩

/-! ## C6: sub-app lookup -/

/-- C6.  For any app and label: with no sub-app registered under the label,
`get_sub_app` and `get_sub_app_mut` return `Err` carrying back exactly the
original label (the pure accessors leave the app untouched), and `sub_app` /
`sub_app_mut` panic; with a sub-app registered, all four return that
sub-app's nested `App`. -/
theorem sub_app_lookup (a : AppV) (label : AppLabelV) :
    (findSubApp a.subApps label = none →
      a.get_sub_app label = .error label ∧ a.get_sub_app_mut label = .error label ∧
      a.sub_app label = none ∧ a.sub_app_mut label = none) ∧
    (∀ sub r, findSubApp a.subApps label = some (sub, r) →
      a.get_sub_app label = .ok sub ∧ a.get_sub_app_mut label = .ok sub ∧
      a.sub_app label = some sub ∧ a.sub_app_mut label = some sub) := by
  constructor
  · intro h
    refine ⟨?_, ?_, ?_, ?_⟩ <;>
      simp [AppV.get_sub_app, AppV.get_sub_app_mut, AppV.sub_app, AppV.sub_app_mut, h]
  · intro sub r h
    refine ⟨?_, ?_, ?_, ?_⟩ <;>
      simp [AppV.get_sub_app, AppV.get_sub_app_mut, AppV.sub_app, AppV.sub_app_mut, h]

/-- Witness for C6 at concrete inputs: the empty app has no sub-app under
label 5, and an app with a sub-app registered under label 7 returns its
nested app through all four accessors. -/
theorem sub_app_lookup_witness :
    (AppV.empty.get_sub_app 5 = .error 5 ∧ AppV.empty.get_sub_app_mut 5 = .error 5 ∧
      AppV.empty.sub_app 5 = none ∧ AppV.empty.sub_app_mut 5 = none) ∧
    ((AppV.empty.add_sub_app 7 appNew 3).get_sub_app 7 = .ok appNew ∧
      (AppV.empty.add_sub_app 7 appNew 3).get_sub_app_mut 7 = .ok appNew ∧
      (AppV.empty.add_sub_app 7 appNew 3).sub_app 7 = some appNew ∧
      (AppV.empty.add_sub_app 7 appNew 3).sub_app_mut 7 = some appNew) :=
  ⟨(sub_app_lookup AppV.empty 5).1 rfl,
   (sub_app_lookup (AppV.empty.add_sub_app 7 appNew 3) 7).2 appNew 3 rfl⟩

/-! ## C8: `App::run` moves the configuration out -/

/-- C8.  `run()` hands the app's entire current configuration (world,
schedule, sub-apps) to the configured runner closure, invoked exactly once,
with the moved-out app's own runner slot reset to `run_once`; what is left
behind in `self` is exactly the `App::empty()` placeholder (default world,
empty schedule, no sub-apps, `run_once` runner), independent of the original
configuration — so the original configuration is not reachable through
`self` afterwards. -/
theorem run_moves_configuration (a : AppV) :
    (AppV.run a).1 = AppV.empty ∧
    AppV.empty.world = ⟨[]⟩ ∧ AppV.empty.schedule = [] ∧
    AppV.empty.subApps = [] ∧ AppV.empty.runner = .runOnce ∧
    (∀ b : AppV, (AppV.run a).1 = (AppV.run b).1) ∧
    (AppV.run a).2.1 = a.runner ∧
    (AppV.run a).2.2.world = a.world ∧
    (AppV.run a).2.2.schedule = a.schedule ∧
    (AppV.run a).2.2.subApps = a.subApps ∧
    (AppV.run a).2.2.runner = .runOnce := by
  refine ⟨rfl, rfl, rfl, rfl, rfl, fun _ => rfl, rfl, ?_, ?_, ?_, rfl⟩ <;>
    cases a <;> rfl

/-! ## C9: startup stages are guarded against the plain add-system path -/

/-- The expected result of adding one system to a startup sub-stage of
`App::new()`. -/
def appNewWithStartupSys : StartupStageL → SysId → AppV
  | .preStartup, sys =>
    defaultShaped [appExitUpdateSys] [sys] [] [] [] [] [] [clearTrackersSys]
  | .startup, sys =>
    defaultShaped [appExitUpdateSys] [] [sys] [] [] [] [] [clearTrackersSys]
  | .postStartup, sys =>
    defaultShaped [appExitUpdateSys] [] [] [sys] [] [] [] [clearTrackersSys]

/-- C9.  For every label whose concrete type is `StartupStage`,
`add_system_to_stage` and `add_system_set_to_stage` panic on their assertion
(the failure happens before the schedule is touched), for every app; adding
into the startup stages goes through `add_startup_system_to_stage` /
`add_startup_system_set_to_stage`, which succeed on the default schedule and
append to the named sub-stage. -/
theorem startup_stage_add_guard (a : AppV) (ss : StartupStageL) (sys : SysId)
    (set : List SysId) :
    a.add_system_to_stage (.startupStage ss) sys = none ∧
    a.add_system_set_to_stage (.startupStage ss) set = none ∧
    appNew.add_startup_system_to_stage (.startupStage ss) sys =
      some (appNewWithStartupSys ss sys) ∧
    (∃ b : AppV, appNew.add_startup_system_set_to_stage (.startupStage ss) set = some b ∧
      startupStageSystems b ss = startupStageSystems appNew ss ++ set) := by
  refine ⟨rfl, rfl, ?_, ?_⟩
  · cases ss <;> rfl
  · cases ss <;>
      exact ⟨_, rfl, rfl⟩

/-! ## C7: one schedule run, then each sub-app runner once -/

/-- The sub-app loop invokes each registered runner once, in map order. -/
lemma runSubApps_trace (env : SubRunnerEnv) (w : WorldV)
    (subs : List (AppLabelV × AppV × SubRunnerTag)) :
    (runSubApps env w subs).2.2 = subs.map (fun p => EventV.subAppRun p.1) := by
  induction subs generalizing w with
  | nil => rfl
  | cons hd tl ih =>
    obtain ⟨l, sub, r⟩ := hd
    simp [runSubApps, ih]

/-- C7.  One `update()` call produces the trace of one full schedule run
followed by one `subAppRun` event per registered sub-app, in that order: the
schedule run completes before any sub-app runner is invoked, and — when the
sub-app labels are distinct, as they are in a `HashMap` — each registered
sub-app's runner is invoked exactly once. -/
theorem update_schedule_then_sub_apps (env : SubRunnerEnv) (a : AppV) :
    (AppV.update env a).2 =
      (runSchedule a.schedule).2.map EventV.sysRun ++
        a.subApps.map (fun p => EventV.subAppRun p.1) ∧
    (∀ label, (a.subApps.map Prod.fst).Nodup → label ∈ a.subApps.map Prod.fst →
      (AppV.update env a).2.count (EventV.subAppRun label) = 1) := by
  have htrace : (AppV.update env a).2 =
      (runSchedule a.schedule).2.map EventV.sysRun ++
        a.subApps.map (fun p => EventV.subAppRun p.1) := by
    simp [AppV.update, runSubApps_trace]
  refine ⟨htrace, fun label hnd hmem => ?_⟩
  rw [htrace, List.count_append]
  have hzero : ((runSchedule a.schedule).2.map EventV.sysRun).count
      (EventV.subAppRun label) = 0 := by
    rw [List.count_eq_zero]
    intro hcontra
    obtain ⟨x, _, hx⟩ := List.mem_map.mp hcontra
    exact EventV.noConfusion hx
  have hmapmap : a.subApps.map (fun p => EventV.subAppRun p.1) =
      (a.subApps.map Prod.fst).map EventV.subAppRun := by
    simp [List.map_map]
  have hinj : Function.Injective EventV.subAppRun := by
    intro x y hxy
    cases hxy
    rfl
  rw [hzero, hmapmap, List.count_map_of_injective _ _ hinj,
    List.count_eq_one_of_mem hnd hmem]

/-- Witness for C7: an app with one registered sub-app (label 4) invokes its
runner exactly once per `update`. -/
theorem update_schedule_then_sub_apps_witness :
    (AppV.update (fun _ w s => (w, s)) (AppV.empty.add_sub_app 4 AppV.empty 9)).2.count
      (EventV.subAppRun 4) = 1 :=
  (update_schedule_then_sub_apps (fun _ w s => (w, s))
    (AppV.empty.add_sub_app 4 AppV.empty 9)).2 4 (by decide) (by decide)

/-! ## C2: the startup schedule runs exactly once -/

/-- First `update` of a default-shaped app: the startup systems run, between
First and PreUpdate, and the `RunOnce` flag flips. -/
lemma update_defaultShaped (env : SubRunnerEnv) (f p s q pre u post l : List SysId) :
    AppV.update env (defaultShaped f p s q pre u post l) =
      (defaultShapedRan f p s q pre u post l,
        (f ++ p ++ s ++ q ++ pre ++ u ++ post ++ l).map EventV.sysRun) := by
  simp [AppV.update, defaultShaped, defaultShapedRan, runSchedule, runStage, runSubApps,
    AppV.schedule, AppV.world, AppV.subApps, AppV.runner]

/-- Any later `update` of a default-shaped app: the startup systems are
skipped and the app is unchanged. -/
lemma update_defaultShapedRan (env : SubRunnerEnv) (f p s q pre u post l : List SysId) :
    AppV.update env (defaultShapedRan f p s q pre u post l) =
      (defaultShapedRan f p s q pre u post l,
        (f ++ pre ++ u ++ post ++ l).map EventV.sysRun) := by
  simp [AppV.update, defaultShapedRan, runSchedule, runStage, runSubApps,
    AppV.schedule, AppV.world, AppV.subApps, AppV.runner]

/-- Once the startup criterion has run the app is a fixed point of `update`. -/
lemma iterApp_defaultShapedRan (env : SubRunnerEnv) (f p s q pre u post l : List SysId) :
    ∀ k, iterApp env k (defaultShapedRan f p s q pre u post l) =
      defaultShapedRan f p s q pre u post l := by
  intro k
  induction k with
  | zero => rfl
  | succ k ih =>
    show iterApp env k (AppV.update env (defaultShapedRan f p s q pre u post l)).1 = _
    rw [update_defaultShapedRan]
    exact ih

/-- C2.  For an app built with the default stages (any systems in the seven
system stages), the startup-schedule systems (`p ++ s ++ q`) run on the
first `update()`, and every later `update()` — the `(j+1)`-st call for any
`j ≥ 1` — skips them, running only First, PreUpdate, Update, PostUpdate,
Last.  The last conjunct ties the shape to the source builder:
`App::empty().add_default_stages()` is exactly the default shape with empty
system lists. -/
theorem startup_runs_exactly_once (env : SubRunnerEnv) (f p s q pre u post l : List SysId)
    (j : Nat) (hj : 1 ≤ j) :
    (AppV.update env (defaultShaped f p s q pre u post l)).2 =
      (f ++ p ++ s ++ q ++ pre ++ u ++ post ++ l).map EventV.sysRun ∧
    (AppV.update env (iterApp env j (defaultShaped f p s q pre u post l))).2 =
      (f ++ pre ++ u ++ post ++ l).map EventV.sysRun ∧
    AppV.empty.add_default_stages = defaultShaped [] [] [] [] [] [] [] [] := by
  refine ⟨by rw [update_defaultShaped], ?_, rfl⟩
  obtain ⟨i, rfl⟩ := Nat.exists_eq_add_of_le hj
  rw [Nat.add_comm 1 i]
  have hstep : iterApp env (i + 1) (defaultShaped f p s q pre u post l) =
      iterApp env i (AppV.update env (defaultShaped f p s q pre u post l)).1 := rfl
  rw [hstep, update_defaultShaped, iterApp_defaultShapedRan, update_defaultShapedRan]

/-- Witness for C2: one startup system (id 10) runs on the first update of
the default-shaped app and not on the second. -/
theorem startup_runs_exactly_once_witness :
    (AppV.update (fun _ w s => (w, s)) (defaultShaped [] [] [10] [] [] [] [] [])).2 =
      [EventV.sysRun 10] ∧
    (AppV.update (fun _ w s => (w, s))
      (iterApp (fun _ w s => (w, s)) 1 (defaultShaped [] [] [10] [] [] [] [] []))).2 = [] := by
  have h := startup_runs_exactly_once (fun _ w s => (w, s)) [] [] [10] [] [] [] [] [] 1
    (by decide)
  exact ⟨h.1.trans (by decide), h.2.1.trans (by decide)⟩

/-! ## C5: extraction skips invisible and still-loading entities -/

/-- C5.  `extract_uinodes` produces exactly the records of the rows that are
visible and whose image handle is already present in `Assets<Image>`, one
record per such row, in query order: an invisible row, or a row whose image
is still loading, contributes nothing this frame. -/
theorem extract_uinodes_spec (buffer : List ExtractedUiNode) (images : List HandleId)
    (rows : List UiNodeRow) :
    extract_uinodes buffer images rows =
      (rows.filter (fun r => r.isVisible && images.contains r.image)).map extractRecord ∧
    (extract_uinodes buffer images rows).length =
      (rows.filter (fun r => r.isVisible && images.contains r.image)).length := by
  have h : ∀ rs : List UiNodeRow,
      extractUinodesGo images rs =
        (rs.filter (fun r => r.isVisible && images.contains r.image)).map extractRecord := by
    intro rs
    induction rs with
    | nil => rfl
    | cons r rest ih =>
      by_cases hv : r.isVisible
      · by_cases hm : r.image ∈ images
        · have hc : images.contains r.image = true := by simpa using hm
          simp [extractUinodesGo, hv, hc, hm, List.filter_cons, ih]
        · have hc : images.contains r.image = false := by simpa using hm
          simp [extractUinodesGo, hv, hc, hm, List.filter_cons, ih]
      · simp [extractUinodesGo, hv, List.filter_cons, ih]
  refine ⟨h rows, ?_⟩
  show (extractUinodesGo images rows).length = _
  rw [h rows, List.length_map]

/-! ## C10: the Extract stage clears once, then appends -/

/-- `extract_text_uinodes`'s loop only appends: running it from any buffer
prepends that buffer to the run from the empty buffer. -/
lemma extractTextGo_append (atlases : HandleId → AtlasQ)
    (pipeline : Nat → Option (List TextGlyph)) (sf : ℚ) :
    ∀ (rows : List TextRow) (buffer : List ExtractedUiNode),
      extractTextGo atlases pipeline sf buffer rows =
        buffer ++ extractTextGo atlases pipeline sf [] rows := by
  intro rows
  induction rows with
  | nil => intro buffer; simp [extractTextGo]
  | cons row rest ih =>
    intro buffer
    simp only [extractTextGo]
    by_cases hv : row.isVisible = false
    · simp only [if_pos hv]
      exact ih buffer
    · simp only [if_neg hv]
      by_cases hz : row.size = (⟨0, 0⟩ : Vec2Q)
      · simp only [if_pos hz]
        exact ih buffer
      · simp only [if_neg hz]
        cases hpl : pipeline row.entity with
        | none =>
          exact ih buffer
        | some glyphs =>
          show extractTextGo atlases pipeline sf
              (buffer ++ glyphs.map (textGlyphRecord atlases sf row)) rest = _
          rw [ih (buffer ++ glyphs.map (textGlyphRecord atlases sf row))]
          show _ = buffer ++ extractTextGo atlases pipeline sf
            ([] ++ glyphs.map (textGlyphRecord atlases sf row)) rest
          rw [ih ([] ++ glyphs.map (textGlyphRecord atlases sf row))]
          simp

/-- C10.  After the Extract stage (node extraction, then text extraction,
per the declared `.label`/`.after` ordering), the buffer holds exactly this
frame's records: the node records followed by the text records.  The result
is independent of whatever the buffer held before the stage —
`extract_uinodes` clears it at the start of its run — and the text records,
appended after the clear, are never dropped. -/
theorem extract_stage_no_accumulation (buffer : List ExtractedUiNode)
    (images : List HandleId) (rows : List UiNodeRow) (atlases : HandleId → AtlasQ)
    (pipeline : Nat → Option (List TextGlyph)) (primaryScaleFactor : Option ℚ)
    (textRows : List TextRow) :
    runExtractStage buffer images rows atlases pipeline primaryScaleFactor textRows =
      extract_uinodes [] images rows ++
        extract_text_uinodes [] atlases pipeline primaryScaleFactor textRows ∧
    (∀ buffer2, runExtractStage buffer images rows atlases pipeline primaryScaleFactor
      textRows =
      runExtractStage buffer2 images rows atlases pipeline primaryScaleFactor textRows) := by
  have h : ∀ b, runExtractStage b images rows atlases pipeline primaryScaleFactor textRows =
      extract_uinodes [] images rows ++
        extract_text_uinodes [] atlases pipeline primaryScaleFactor textRows := by
    intro b
    show extract_text_uinodes (extract_uinodes b images rows) atlases pipeline
      primaryScaleFactor textRows = _
    show extractTextGo atlases pipeline _ (extract_uinodes b images rows) textRows = _
    rw [extractTextGo_append]
    rfl
  exact ⟨h buffer, fun buffer2 => (h buffer).trans (h buffer2).symm⟩

/-! ## C4: fully clipped nodes are culled, visible nodes get six vertices -/

/-- C4.  The cull test of `prepare_uinodes` fires exactly when the clip
reduces the node's visible span to zero or less on the x or the y axis; a
culled node contributes no geometry — its vertices are not pushed, the
vertex cursor does not advance, and no uniform entry is consumed (the
uniform index is never incremented by a culled node; a batch-boundary flush
triggered by the node's image handle can only reset it to zero) — while a
node that is not fully clipped contributes exactly six vertices. -/
theorem prepare_cull_no_geometry (st : PrepState) (n : ExtractedUiNode) :
    (culled n = true ↔ visibleSpanX n ≤ 0 ∨ visibleSpanY n ≤ 0) ∧
    (visibleSpanX n ≤ 0 ∨ visibleSpanY n ≤ 0 →
      (prepareStep st n).verts = st.verts ∧ (prepareStep st n).ending = st.ending ∧
      (prepareStep st n).currentUniformIndex ≤ st.currentUniformIndex) ∧
    (¬(visibleSpanX n ≤ 0 ∨ visibleSpanY n ≤ 0) →
      (prepareStep st n).verts.length = st.verts.length + 6 ∧
      (prepareStep st n).ending = st.ending + 6) := by
  have hspan : culled n = true ↔ visibleSpanX n ≤ 0 ∨ visibleSpanY n ≤ 0 := by
    simp [culled, visibleSpanX, visibleSpanY, sub_nonpos, decide_eq_true_eq]
  refine ⟨hspan, ?_, ?_⟩
  · intro h
    have hc : culled n = true := hspan.mpr h
    by_cases hA : st.currentBatchHandle ≠ some n.image ∨
        MAX_UI_UNIFORM_ENTRIES ≤ st.currentUniformIndex
    · by_cases hB : st.start ≠ st.ending
      · simp [prepareStep, hA, hB, hc]
      · simp [prepareStep, hA, hB, hc]
    · simp [prepareStep, hA, hc]
  · intro h
    have hc : culled n = false := by
      rcases Bool.eq_false_or_eq_true (culled n) with ht | hf
      · exact absurd (hspan.mp ht) h
      · exact hf
    by_cases hA : st.currentBatchHandle ≠ some n.image ∨
        MAX_UI_UNIFORM_ENTRIES ≤ st.currentUniformIndex
    · by_cases hB : st.start ≠ st.ending
      · simp [prepareStep, hA, hB, hc, nodeVerts]
      · simp [prepareStep, hA, hB, hc, nodeVerts]
    · simp [prepareStep, hA, hc, nodeVerts]

/-- The identity transform with a z translation (`w_axis = (0,0,z,1)`). -/
def mat4IdTransZ (z : ℚ) : Mat4Q :=
  ⟨⟨1, 0, 0, 0⟩, ⟨0, 1, 0, 0⟩, ⟨0, 0, 1, 0⟩, ⟨0, 0, z, 1⟩⟩

/-- A concrete extracted node: rect `(0,0)-(2,2)`, identity transform at
depth `z`, given image handle and clip. -/
def mkTestNode (image : HandleId) (z : ℚ) (clip : Option RectQ) : ExtractedUiNode :=
  { transform := mat4IdTransZ z
    color := ⟨1, 1, 1, 1⟩
    rect := ⟨⟨0, 0⟩, ⟨2, 2⟩⟩
    image := image
    atlasSize := none
    clip := clip
    borderColor := none
    borderWidth := none
    cornerRadius := none }

/-- A node whose clip rectangle lies entirely outside its quad. -/
def cCulledNode : ExtractedUiNode := mkTestNode 2 1 (some ⟨⟨10, 10⟩, ⟨11, 11⟩⟩)

/-- A node with no clip. -/
def cVisibleNode : ExtractedUiNode := mkTestNode 1 0 none

/-- Witness for C4: the fully clipped concrete node produces no geometry and
consumes no uniform entry; the unclipped one contributes six vertices. -/
theorem prepare_cull_no_geometry_witness :
    ((prepareStep prepareInit cCulledNode).verts = prepareInit.verts ∧
      (prepareStep prepareInit cCulledNode).ending = prepareInit.ending ∧
      (prepareStep prepareInit cCulledNode).currentUniformIndex ≤
        prepareInit.currentUniformIndex) ∧
    ((prepareStep prepareInit cVisibleNode).verts.length = prepareInit.verts.length + 6 ∧
      (prepareStep prepareInit cVisibleNode).ending = prepareInit.ending + 6) :=
  ⟨(prepare_cull_no_geometry prepareInit cCulledNode).2.1 (by decide),
   (prepare_cull_no_geometry prepareInit cVisibleNode).2.2 (by decide)⟩

/-! ## C1: greedy batching over contiguous same-image runs -/

/-- A stable sort of an already-sorted list is the identity. -/
lemma sortByZ_eq_self : ∀ (nodes : List ExtractedUiNode), sortedByZ nodes →
    sortByZ nodes = nodes
  | [], _ => rfl
  | [_], _ => rfl
  | n :: m :: rest, hsort => by
    have h1 : zOf n ≤ zOf m := (List.chain'_cons.mp hsort).1
    have h2 : sortedByZ (m :: rest) := (List.chain'_cons.mp hsort).2
    show insertByZ n (sortByZ (m :: rest)) = n :: m :: rest
    rw [sortByZ_eq_self (m :: rest) h2]
    simp [insertByZ, h1]

/-- Loop step on a node that continues the current batch: same image handle,
uniform table not full, not culled. -/
lemma prepareStep_no_flush (st : PrepState) (n : ExtractedUiNode)
    (hhandle : st.currentBatchHandle = some n.image)
    (hidx : st.currentUniformIndex < MAX_UI_UNIFORM_ENTRIES)
    (hcul : culled n = false) :
    prepareStep st n =
      { st with
        verts := st.verts ++ nodeVerts n st.currentUniformIndex
        currentUniformIndex := st.currentUniformIndex + 1
        lastZ := zOf n
        ending := st.ending + 6 } := by
  have hcond : ¬(st.currentBatchHandle ≠ some n.image ∨
      MAX_UI_UNIFORM_ENTRIES ≤ st.currentUniformIndex) := by
    push_neg
    exact ⟨hhandle, hidx⟩
  simp [prepareStep, hcond, hcul]

/-- Loop step on a node that opens a run while nothing is pending
(`start == end`): the image handle flips but no batch is spawned and the
uniform index is not reset. -/
lemma prepareStep_fresh (st : PrepState) (n : ExtractedUiNode)
    (hhandle : st.currentBatchHandle ≠ some n.image)
    (hse : st.start = st.ending)
    (hcul : culled n = false) :
    prepareStep st n =
      { st with
        currentBatchHandle := some n.image
        verts := st.verts ++ nodeVerts n st.currentUniformIndex
        currentUniformIndex := st.currentUniformIndex + 1
        lastZ := zOf n
        ending := st.ending + 6 } := by
  have hcond : st.currentBatchHandle ≠ some n.image ∨
      MAX_UI_UNIFORM_ENTRIES ≤ st.currentUniformIndex := Or.inl hhandle
  simp [prepareStep, hcond, hse, hcul]

/-- Loop step on a node that closes the pending batch (image change or full
uniform table, with vertices pending): one `UiBatch` is spawned and the run
restarts at the node. -/
lemma prepareStep_flush (st : PrepState) (n : ExtractedUiNode)
    (hcond : st.currentBatchHandle ≠ some n.image ∨
      MAX_UI_UNIFORM_ENTRIES ≤ st.currentUniformIndex)
    (hne : st.start ≠ st.ending)
    (hcul : culled n = false) :
    prepareStep st n =
      { verts := st.verts ++ nodeVerts n 0
        uniformsPushed := st.uniformsPushed + 1
        batches := st.batches ++
          [⟨st.start, st.ending, st.currentBatchHandle, st.uniformsPushed, st.lastZ⟩]
        start := st.ending
        ending := st.ending + 6
        currentBatchHandle := some n.image
        lastZ := zOf n
        currentUniformIndex := 1 } := by
  simp [prepareStep, hcond, hne, hcul]

/-- Folding the loop over a run of same-image, non-culled nodes that fits in
the uniform table: no batch is spawned, the cursors and the uniform index
advance. -/
lemma foldl_same_image_run :
    ∀ (nodes : List ExtractedUiNode) (st : PrepState) (h : HandleId),
    (∀ n ∈ nodes, n.image = h) → (∀ n ∈ nodes, culled n = false) →
    st.currentBatchHandle = some h →
    st.currentUniformIndex + nodes.length ≤ MAX_UI_UNIFORM_ENTRIES →
    (nodes.foldl prepareStep st).batches = st.batches ∧
    (nodes.foldl prepareStep st).start = st.start ∧
    (nodes.foldl prepareStep st).ending = st.ending + 6 * nodes.length ∧
    (nodes.foldl prepareStep st).currentUniformIndex =
      st.currentUniformIndex + nodes.length ∧
    (nodes.foldl prepareStep st).currentBatchHandle = some h ∧
    (nodes.foldl prepareStep st).uniformsPushed = st.uniformsPushed := by
  intro nodes
  induction nodes with
  | nil =>
    intro st h _ _ hh _
    exact ⟨rfl, rfl, by simp, by simp, hh, rfl⟩
  | cons n rest ih =>
    intro st h himg hcul hh hle
    have h1 : n.image = h := himg n (List.mem_cons_self n rest)
    have hlen : st.currentUniformIndex + (rest.length + 1) ≤ MAX_UI_UNIFORM_ENTRIES := by
      simpa using hle
    have hidx : st.currentUniformIndex < MAX_UI_UNIFORM_ENTRIES := by omega
    rw [List.foldl_cons,
      prepareStep_no_flush st n (by rw [hh, h1]) hidx (hcul n (List.mem_cons_self n rest))]
    have ih2 := ih
      { st with
        verts := st.verts ++ nodeVerts n st.currentUniformIndex
        currentUniformIndex := st.currentUniformIndex + 1
        lastZ := zOf n
        ending := st.ending + 6 } h
      (fun m hm => himg m (List.mem_cons_of_mem n hm))
      (fun m hm => hcul m (List.mem_cons_of_mem n hm))
      (by simpa using hh)
      (by simp; omega)
    obtain ⟨hb, hs, he, hi, hh2, hu⟩ := ih2
    refine ⟨by simpa using hb, by simpa using hs, ?_, ?_, hh2, by simpa using hu⟩
    · rw [he]
      simp
      omega
    · rw [hi]
      simp
      omega

/-- The image handle of the last node of a list, defaulting to `h`. -/
def lastImage : List ExtractedUiNode → HandleId → HandleId
  | [], h => h
  | n :: rest, _ => lastImage rest n.image

/-- Folding the loop over non-culled nodes whose adjacent image handles all
differ, starting mid-run (six pending vertices, uniform index 1) on a batch
handle different from the first node's image: every node closes the pending
batch, so one batch is spawned per node. -/
lemma foldl_alternating :
    ∀ (nodes : List ExtractedUiNode) (st : PrepState) (h : HandleId),
    (∀ n ∈ nodes, culled n = false) →
    List.Chain' (fun x y => x.image ≠ y.image) nodes →
    (∀ n ∈ nodes.head?, n.image ≠ h) →
    st.currentBatchHandle = some h →
    st.ending = st.start + 6 →
    st.currentUniformIndex = 1 →
    (nodes.foldl prepareStep st).batches.length = st.batches.length + nodes.length ∧
    (nodes.foldl prepareStep st).ending = (nodes.foldl prepareStep st).start + 6 ∧
    (nodes.foldl prepareStep st).currentUniformIndex = 1 ∧
    (nodes.foldl prepareStep st).currentBatchHandle = some (lastImage nodes h) := by
  intro nodes
  induction nodes with
  | nil =>
    intro st h _ _ _ hh hend hidx
    exact ⟨by simp, hend, hidx, by simpa [lastImage] using hh⟩
  | cons n rest ih =>
    intro st h hcul hchain hhead hh hend hidx
    have hne : st.start ≠ st.ending := by omega
    have hni : n.image ≠ h := hhead n (by simp)
    have hcond : st.currentBatchHandle ≠ some n.image ∨
        MAX_UI_UNIFORM_ENTRIES ≤ st.currentUniformIndex := by
      left
      rw [hh]
      intro hcontra
      exact hni (Option.some.inj hcontra).symm
    rw [List.foldl_cons, prepareStep_flush st n hcond hne (hcul n (by simp))]
    have hpair := List.chain'_cons'.mp hchain
    have ih2 := ih
      { verts := st.verts ++ nodeVerts n 0
        uniformsPushed := st.uniformsPushed + 1
        batches := st.batches ++
          [⟨st.start, st.ending, st.currentBatchHandle, st.uniformsPushed, st.lastZ⟩]
        start := st.ending
        ending := st.ending + 6
        currentBatchHandle := some n.image
        lastZ := zOf n
        currentUniformIndex := 1 } n.image
      (fun m hm => hcul m (List.mem_cons_of_mem n hm))
      hpair.2
      (fun m hm => (hpair.1 m hm).symm)
      rfl rfl rfl
    obtain ⟨hb, hse, hi, hh2⟩ := ih2
    refine ⟨?_, hse, hi, by simpa [lastImage] using hh2⟩
    rw [hb]
    simp
    omega

/-- C1 (amended).  After sorting by ascending depth key, batching is greedy
over contiguous same-image runs of the whole node sequence — culled nodes
included in the image-handle comparison — with a 256-entry uniform-table
capacity.  For sequences without culled nodes: (i) N nodes sharing one image
handle, 1 ≤ N ≤ 256, produce exactly one batch covering all 6N vertices;
(ii) 257 such nodes produce exactly two batches split at the 256-entry
boundary; (iii) nodes alternating between two image handles (adjacent
handles always differ) produce one batch per contiguous same-image run,
i.e. one per node, not one per distinct image. -/
theorem prepare_uinodes_batching :
    (∀ (nodes : List ExtractedUiNode) (h : HandleId),
      sortedByZ nodes → nodes ≠ [] →
      (∀ n ∈ nodes, n.image = h) → (∀ n ∈ nodes, culled n = false) →
      nodes.length ≤ MAX_UI_UNIFORM_ENTRIES →
      ∃ b : UiBatch, (prepare_uinodes nodes).batches = [b] ∧
        b.rangeStart = 0 ∧ b.rangeEnd = 6 * nodes.length) ∧
    (∀ (nodes : List ExtractedUiNode) (h : HandleId),
      sortedByZ nodes →
      (∀ n ∈ nodes, n.image = h) → (∀ n ∈ nodes, culled n = false) →
      nodes.length = MAX_UI_UNIFORM_ENTRIES + 1 →
      ∃ b1 b2 : UiBatch, (prepare_uinodes nodes).batches = [b1, b2] ∧
        b1.rangeStart = 0 ∧ b1.rangeEnd = 6 * MAX_UI_UNIFORM_ENTRIES ∧
        b2.rangeStart = 6 * MAX_UI_UNIFORM_ENTRIES ∧
        b2.rangeEnd = 6 * (MAX_UI_UNIFORM_ENTRIES + 1)) ∧
    (∀ (nodes : List ExtractedUiNode) (a b : HandleId),
      sortedByZ nodes → a ≠ b →
      (∀ n ∈ nodes, culled n = false) →
      (∀ (i : Nat) (hi : i < nodes.length),
        (nodes.get ⟨i, hi⟩).image = if i % 2 = 0 then a else b) →
      (prepare_uinodes nodes).batches.length = nodes.length) := by
  refine ⟨?_, ?_, ?_⟩
  · -- (i) one run, at most 256 entries: a single trailing batch
    intro nodes h hsort hne himg hcul hlen
    obtain ⟨n0, rest, rfl⟩ : ∃ n0 rest, nodes = n0 :: rest := by
      cases nodes with
      | nil => exact absurd rfl hne
      | cons x xs => exact ⟨x, xs, rfl⟩
    have hstep0 := prepareStep_fresh prepareInit n0 (by simp [prepareInit]) rfl
      (hcul n0 (by simp))
    have hlen2 : rest.length + 1 ≤ MAX_UI_UNIFORM_ENTRIES := by simpa using hlen
    have hrun := foldl_same_image_run rest (prepareStep prepareInit n0) h
      (fun m hm => himg m (List.mem_cons_of_mem n0 hm))
      (fun m hm => hcul m (List.mem_cons_of_mem n0 hm))
      (by rw [hstep0]; simp [himg n0 (by simp)])
      (by rw [hstep0]; simp [prepareInit]; omega)
    unfold prepare_uinodes
    rw [sortByZ_eq_self _ hsort, List.foldl_cons]
    generalize hFeq : List.foldl prepareStep (prepareStep prepareInit n0) rest = F
    rw [hFeq] at hrun
    obtain ⟨hb, hs, he, hi, hh2, hu⟩ := hrun
    have hb2 : F.batches = [] := by rw [hb, hstep0]; simp [prepareInit]
    have hs2 : F.start = 0 := by rw [hs, hstep0]; simp [prepareInit]
    have he2 : F.ending = 6 + 6 * rest.length := by rw [he, hstep0]; simp [prepareInit]
    refine ⟨⟨F.start, F.ending, F.currentBatchHandle, F.uniformsPushed, F.lastZ⟩, ?_, hs2, ?_⟩
    · have hne2 : F.start ≠ F.ending := by omega
      simp [prepareFinish, hne2, hb2]
    · show F.ending = 6 * (n0 :: rest).length
      rw [he2]
      simp
      omega
  · -- (ii) one run of 257: split at the 256-entry boundary
    intro nodes h hsort himg hcul hlen
    obtain ⟨n0, rest, rfl⟩ : ∃ n0 rest, nodes = n0 :: rest := by
      cases nodes with
      | nil => simp [MAX_UI_UNIFORM_ENTRIES] at hlen
      | cons x xs => exact ⟨x, xs, rfl⟩
    have hrlen : rest.length = 256 := by
      simp [MAX_UI_UNIFORM_ENTRIES] at hlen
      omega
    obtain ⟨nL, hdropEq⟩ : ∃ nL, rest.drop 255 = [nL] := by
      apply List.length_eq_one.mp
      rw [List.length_drop]
      omega
    have hLmem : nL ∈ n0 :: rest := by
      have hmem : nL ∈ rest.drop 255 := by rw [hdropEq]; simp
      exact List.mem_cons_of_mem n0 (List.drop_subset 255 rest hmem)
    have hstep0 := prepareStep_fresh prepareInit n0 (by simp [prepareInit]) rfl
      (hcul n0 (by simp))
    have hrun := foldl_same_image_run (rest.take 255) (prepareStep prepareInit n0) h
      (fun m hm => himg m (List.mem_cons_of_mem n0 (List.take_subset 255 rest hm)))
      (fun m hm => hcul m (List.mem_cons_of_mem n0 (List.take_subset 255 rest hm)))
      (by rw [hstep0]; simp [himg n0 (by simp)])
      (by rw [hstep0]; simp [prepareInit, List.length_take, hrlen, MAX_UI_UNIFORM_ENTRIES])
    unfold prepare_uinodes
    rw [sortByZ_eq_self _ hsort, List.foldl_cons]
    have hsplit : rest = rest.take 255 ++ rest.drop 255 := (List.take_append_drop 255 rest).symm
    rw [hsplit, List.foldl_append, hdropEq, List.foldl_cons, List.foldl_nil]
    generalize hFeq : List.foldl prepareStep (prepareStep prepareInit n0) (rest.take 255) = F1
    rw [hFeq] at hrun
    obtain ⟨hb, hs, he, hi, hh2, hu⟩ := hrun
    have hb2 : F1.batches = [] := by rw [hb, hstep0]; simp [prepareInit]
    have hs2 : F1.start = 0 := by rw [hs, hstep0]; simp [prepareInit]
    have he2 : F1.ending = 1536 := by
      rw [he, hstep0]
      simp [prepareInit, List.length_take, hrlen]
    have hi2 : F1.currentUniformIndex = 256 := by
      rw [hi, hstep0]
      simp [prepareInit, List.length_take, hrlen]
    have hstepL := prepareStep_flush F1 nL
      (Or.inr (by rw [hi2]; simp [MAX_UI_UNIFORM_ENTRIES]))
      (by rw [hs2, he2]; omega)
      (hcul nL hLmem)
    rw [hstepL]
    refine ⟨⟨F1.start, F1.ending, F1.currentBatchHandle, F1.uniformsPushed, F1.lastZ⟩,
      ⟨F1.ending, F1.ending + 6, some nL.image, F1.uniformsPushed + 1, zOf nL⟩,
      ?_, ?_, ?_, ?_, ?_⟩
    · have hne2 : F1.ending ≠ F1.ending + 6 := by omega
      simp [prepareFinish, hne2, hb2]
    · exact hs2
    · show F1.ending = 6 * MAX_UI_UNIFORM_ENTRIES
      rw [he2]
      norm_num [MAX_UI_UNIFORM_ENTRIES]
    · show F1.ending = 6 * MAX_UI_UNIFORM_ENTRIES
      rw [he2]
      norm_num [MAX_UI_UNIFORM_ENTRIES]
    · show F1.ending + 6 = 6 * (MAX_UI_UNIFORM_ENTRIES + 1)
      rw [he2]
      norm_num [MAX_UI_UNIFORM_ENTRIES]
  · -- (iii) alternating handles: one batch per node
    intro nodes a b hsort hab hcul halt
    cases nodes with
    | nil => rfl
    | cons n0 rest =>
      have hchain : List.Chain' (fun x y => x.image ≠ y.image) (n0 :: rest) := by
        rw [List.chain'_iff_get]
        intro i hi
        have hi1 : i < (n0 :: rest).length := by
          simp only [List.length_cons] at hi ⊢
          omega
        have hi2 : i + 1 < (n0 :: rest).length := by
          simp only [List.length_cons] at hi ⊢
          omega
        show ((n0 :: rest).get ⟨i, hi1⟩).image ≠ ((n0 :: rest).get ⟨i + 1, hi2⟩).image
        rw [halt i hi1, halt (i + 1) hi2]
        rcases Nat.mod_two_eq_zero_or_one i with hpar | hpar
        · have hpar2 : (i + 1) % 2 = 1 := by omega
          simp [hpar, hpar2]
          exact hab
        · have hpar2 : (i + 1) % 2 = 0 := by omega
          simp [hpar, hpar2]
          exact fun hba => hab hba.symm
      have hpair := List.chain'_cons'.mp hchain
      have hstep0 := prepareStep_fresh prepareInit n0 (by simp [prepareInit]) rfl
        (hcul n0 (by simp))
      have hrun := foldl_alternating rest (prepareStep prepareInit n0) n0.image
        (fun m hm => hcul m (List.mem_cons_of_mem n0 hm))
        hpair.2
        (fun m hm => (hpair.1 m hm).symm)
        (by rw [hstep0])
        (by rw [hstep0]; simp [prepareInit])
        (by rw [hstep0]; simp [prepareInit])
      unfold prepare_uinodes
      rw [sortByZ_eq_self _ hsort, List.foldl_cons]
      generalize hFeq : List.foldl prepareStep (prepareStep prepareInit n0) rest = F
      rw [hFeq] at hrun
      obtain ⟨hb, hse, hi, hh2⟩ := hrun
      have hb2 : F.batches.length = rest.length := by rw [hb, hstep0]; simp [prepareInit]
      have hne2 : F.start ≠ F.ending := by omega
      simp [prepareFinish, hne2, hb2]

/-- Witness for C1 (amended), part (i): one unclipped node yields exactly one
batch covering its six vertices. -/
theorem prepare_uinodes_batching_witness :
    ∃ batch : UiBatch, (prepare_uinodes [cVisibleNode]).batches = [batch] ∧
      batch.rangeStart = 0 ∧ batch.rangeEnd = 6 * [cVisibleNode].length :=
  prepare_uinodes_batching.1 [cVisibleNode] 1 (by decide) (by decide) (by decide)
    (by decide) (by decide)

/-- A depth-sorted sequence whose two non-culled nodes share image handle 1,
with a fully clipped (culled) node carrying image handle 2 between them. -/
def cexNodes : List ExtractedUiNode :=
  [mkTestNode 1 0 none, mkTestNode 2 1 (some ⟨⟨10, 10⟩, ⟨11, 11⟩⟩), mkTestNode 1 2 none]

/-- Counterexample to C1 as stated: all (two) non-culled nodes of `cexNodes`
share one image handle and 2 ≤ 256, yet `prepare_uinodes` emits two batches,
not one — the interleaved culled node participates in the image-handle
comparison and splits the run. -/
theorem prepare_batching_claim_counterexample :
    sortedByZ cexNodes ∧
    (cexNodes.filter (fun n => !culled n)).length = 2 ∧
    (∀ n ∈ cexNodes.filter (fun n => !culled n), n.image = 1) ∧
    2 ≤ MAX_UI_UNIFORM_ENTRIES ∧
    (prepare_uinodes cexNodes).batches.length = 2 ∧
    (prepare_uinodes cexNodes).batches.length ≠ 1 := by decide
